import Mathlib

/-!
Verification development for a columnar-database extension: the PIVOT table
function (src/pivot.cpp) and the last_day family of scalar calendar functions
(src/last-day.cpp).  The C++ sources are shallowly embedded: machine integers
become `Int`/`Nat`, typed database cells become an inductive `VValue`, the
session map `PivotMapTable` becomes a structure over an association list
(modelling `std::unordered_map` insert/find), and the per-row processor state
becomes explicit state passing in an `Except` monad for the host's
`throwError` channel.
-/

set_option maxHeartbeats 1000000

/-- Reference decimal digit string of a natural number: the base-10 digits of
`n` (via `Nat.digits`), most significant first, as characters.  This is the
mathematical notion of "the decimal representation of `n`" against which the
renderers below are compared, and also models the host `std::ostream`
rendering of a nonnegative machine integer. -/
def decStr (n : Nat) : String :=
  if n = 0 then "0" else String.mk (((Nat.digits 10 n).map Nat.digitChar).reverse)

/-- Rendering of a signed machine integer through `std::ostream` in decimal
(64-bit and narrower integer types in the sources). -/
def intRepr (n : Int) : String :=
  if n < 0 then "-" ++ decStr (-n).toNat else decStr n.toNat

/-- The positive branch of `operator<<(std::ostream&, __int128_t)` at
src/pivot.cpp lines 34-41: values above the signed 64-bit maximum are split
into a high segment `n / 10^12` (printed recursively through the same
operator, since the quotient is again `__int128_t`) and a low segment
`n % 10^12` printed as a plain `long long` with no zero padding. -/
def render128pos (n : Nat) : String :=
  if 9223372036854775807 < n then
    render128pos (n / 1000000000000) ++ decStr (n % 1000000000000)
  else decStr n
termination_by n
decreasing_by exact Nat.div_lt_self (by omega) (by norm_num)

/-- Full `operator<<(std::ostream&, __int128_t)` at src/pivot.cpp lines 34-41:
negative values print a minus sign and recurse on the negation. -/
def render128 (v : Int) : String :=
  if v < 0 then "-" ++ render128pos (-v).toNat else render128pos v.toNat

/-- Whether every low segment produced by the splitting in `render128pos` has
a full 12 digits (its leading digit nonzero), i.e. no leading zeros are lost
by the unpadded `long long` print. -/
def segOk (n : Nat) : Bool :=
  if 9223372036854775807 < n then
    decide (100000000000 ≤ n % 1000000000000) && segOk (n / 1000000000000)
  else true
termination_by n
decreasing_by exact Nat.div_lt_self (by omega) (by norm_num)

/-- The type tags branched on by the two key-encoding switches
(src/pivot.cpp lines 115-156 and 275-316).  `other` covers every tag outside
the supported set (the switches' `default` branch). -/
inductive VType : Type
  | timeStamp
  | bigInt
  | numeric
  | int
  | date
  | smallInt
  | float4
  | float8
  | varChar
  | bpChar
  | other (code : Int)
deriving DecidableEq, Repr

/-- A typed database cell value.  Integer-like types carry their underlying
integer (`numeric_t` is the 128-bit integer printed by `render128`).  The two
float types are modelled by their default-`std::ostream` rendering, the only
operation the sources apply to them.  Character types carry their string. -/
inductive VValue : Type
  | timeStamp (t : Int)
  | bigInt (n : Int)
  | numeric (n : Int)
  | int (n : Int)
  | date (n : Int)
  | smallInt (n : Int)
  | float4 (render : String)
  | float8 (render : String)
  | varChar (s : String)
  | bpChar (s : String)
deriving DecidableEq, Repr

/-- Typed getter `getTimeStamp`; the host's behavior on a tag mismatch is
unspecified, modelled as 0. -/
def VValue.getTimeStamp : VValue → Int
  | .timeStamp t => t
  | _ => 0

/-- Typed getter `getBigInt`. -/
def VValue.getBigInt : VValue → Int
  | .bigInt n => n
  | _ => 0

/-- Typed getter `getNumeric`. -/
def VValue.getNumeric : VValue → Int
  | .numeric n => n
  | _ => 0

/-- Typed getter `getInt`. -/
def VValue.getInt : VValue → Int
  | .int n => n
  | _ => 0

/-- Typed getter `getDate`. -/
def VValue.getDate : VValue → Int
  | .date n => n
  | _ => 0

/-- Typed getter `getSmallInt`. -/
def VValue.getSmallInt : VValue → Int
  | .smallInt n => n
  | _ => 0

/-- Typed getter `getFloat4`, immediately rendered by the sources. -/
def VValue.getFloat4 : VValue → String
  | .float4 r => r
  | _ => ""

/-- Typed getter `getFloat8`, immediately rendered by the sources. -/
def VValue.getFloat8 : VValue → String
  | .float8 r => r
  | _ => ""

/-- Getter `getValueAsString`, used by the character-type branches. -/
def VValue.getValueAsString : VValue → String
  | .varChar s => s
  | .bpChar s => s
  | _ => ""

/-- The key string computed by `PivotMapTable::add` (src/pivot.cpp lines
102-161) from a catalog row's column 0: a switch on the recorded pivot-column
type; the `default` branch leaves `keycvt` empty so `key` becomes the empty
string. -/
def addKey (ty : VType) (v : VValue) : String :=
  match ty with
  | .timeStamp => intRepr v.getTimeStamp
  | .bigInt => intRepr v.getBigInt
  | .numeric => render128 v.getNumeric
  | .int => intRepr v.getInt
  | .date => intRepr v.getDate
  | .smallInt => intRepr v.getSmallInt
  | .float4 => v.getFloat4
  | .float8 => v.getFloat8
  | .varChar => v.getValueAsString
  | .bpChar => v.getValueAsString
  | .other _ => ""

/-- The key string computed by `PivotClass::process` (src/pivot.cpp lines
275-319) from an input row's pivot column: the same switch shape, transcribed
from its own site. -/
def processKey (ty : VType) (v : VValue) : String :=
  match ty with
  | .timeStamp => intRepr v.getTimeStamp
  | .bigInt => intRepr v.getBigInt
  | .numeric => render128 v.getNumeric
  | .int => intRepr v.getInt
  | .date => intRepr v.getDate
  | .smallInt => intRepr v.getSmallInt
  | .float4 => v.getFloat4
  | .float8 => v.getFloat8
  | .varChar => v.getValueAsString
  | .bpChar => v.getValueAsString
  | .other _ => ""

/-- First-match lookup in an association list, modelling
`std::unordered_map::find`. -/
def lookupKV : List (String × Int) → String → Option Int
  | [], _ => none
  | p :: rest, k => if p.1 = k then some p.2 else lookupKV rest k

/-- Model of `std::unordered_map::insert`: when the key is already present the existing
entry is KEPT (no overwrite); otherwise the pair is added. -/
def insertKV (l : List (String × Int)) (k : String) (v : Int) : List (String × Int) :=
  if (lookupKV l k).isSome then l else l ++ [(k, v)]

/-- The session object `PivotMapTable` (src/pivot.cpp lines 44-197).
`m_map_values` models the `unordered_map` as an association list. -/
structure PivotMapTable : Type where
  m_key_col_idx : Int
  m_value_type : Int
  m_value_len : Int
  m_pivotcol_type : VType
  m_pivotcol_len : Int
  m_map_values : List (String × Int)
deriving DecidableEq, Repr

/-- The `PivotMapTable` default constructor (src/pivot.cpp lines 184-191). -/
def mkPivotMapTable : PivotMapTable :=
  { m_key_col_idx := 0, m_value_type := 0, m_value_len := 0,
    m_pivotcol_type := .other 0, m_pivotcol_len := 0, m_map_values := [] }

/-- Setter `PivotMapTable::setPivotColType`. -/
def PivotMapTable.setPivotColType (t : PivotMapTable) (v : VType) (len : Int) : PivotMapTable :=
  { t with m_pivotcol_type := v, m_pivotcol_len := len }

/-- Method `PivotMapTable::add` (src/pivot.cpp lines 102-161): encode the catalog
row's column 0 with the recorded pivot-column type and insert
`(key, colpos)`. -/
def PivotMapTable.add (t : PivotMapTable) (v : VValue) (colpos : Int) : PivotMapTable :=
  { t with m_map_values := insertKV t.m_map_values (addKey t.m_pivotcol_type v) colpos }

/-- Method `PivotMapTable::findcolumnoffset` (src/pivot.cpp lines 163-176): -1 when
the key is absent, the stored offset otherwise. -/
def PivotMapTable.findcolumnoffset (t : PivotMapTable) (key : String) : Int :=
  match lookupKV t.m_map_values key with
  | none => -1
  | some v => v

/-- Accessor `PivotMapTable::getMapSize`. -/
def PivotMapTable.getMapSize (t : PivotMapTable) : Nat :=
  t.m_map_values.length

/-- One token of the host `Serializer` stream. -/
inductive SerTok : Type
  | i (n : Int)
  | s (v : String)
  | t (ty : VType)
deriving DecidableEq, Repr

/-- The key/offset pairs written by the serialization loop
(src/pivot.cpp lines 65-70). -/
def encPairs : List (String × Int) → List SerTok
  | [] => []
  | p :: rest => .s p.1 :: .i p.2 :: encPairs rest

/-- Method `PivotMapTable::serialize` (src/pivot.cpp lines 56-71): metadata
`m_pivotcol_type, m_pivotcol_len, m_value_type, m_value_len, entries`, then
the key/offset pairs. -/
def PivotMapTable.serialize (t : PivotMapTable) : List SerTok :=
  .t t.m_pivotcol_type :: .i t.m_pivotcol_len :: .i t.m_value_type ::
    .i t.m_value_len :: .i (t.m_map_values.length : Int) :: encPairs t.m_map_values

/-- The deserialization loop (src/pivot.cpp lines 82-88): read `entries`
key/offset pairs, inserting each into the map. -/
def readPairs : Nat → List (String × Int) → List SerTok → Option (List (String × Int))
  | 0, acc, _ => some acc
  | n + 1, acc, .s k :: .i v :: rest => readPairs n (insertKV acc k v) rest
  | _ + 1, _, _ => none

/-- Method `PivotMapTable::deserialize` (src/pivot.cpp lines 73-89), applied as in
use to a freshly constructed table: read the metadata in serialization order,
then `entries` pairs.  `m_key_col_idx` is not part of the stream and keeps its
constructor value. -/
def deserializeTable (toks : List SerTok) : Option PivotMapTable :=
  match toks with
  | .t pt :: .i pl :: .i vt :: .i vl :: .i n :: rest =>
    (readPairs n.toNat [] rest).map (fun m =>
      { m_key_col_idx := 0, m_value_type := vt, m_value_len := vl,
        m_pivotcol_type := pt, m_pivotcol_len := pl, m_map_values := m })
  | _ => none

/-- The map-construction loop of `PivotClass::StartCmd` (src/pivot.cpp lines
500-503): add each catalog row at the running ordinal `coloffset`. -/
def buildMapAux (t : PivotMapTable) (coloffset : Int) : List VValue → PivotMapTable
  | [] => t
  | v :: rest => buildMapAux (t.add v coloffset) (coloffset + 1) rest

/-- Command `PivotClass::StartCmd` map construction (src/pivot.cpp lines 485-508):
record the catalog schema's column-0 type and length, then insert every
catalog row's encoded key at its 0-based row ordinal. -/
def buildMap (ty : VType) (len : Int) (rows : List VValue) : PivotMapTable :=
  buildMapAux (mkPivotMapTable.setPivotColType ty len) 0 rows

/-- The error channel of `arg.throwError`: each constructor names one of the
failure messages raised by the sources (`SchemaError` is raised only by the
Describe-phase checks, which are not exercised by `StartCmd`). -/
inductive PivotError : Type
  | nullPivotKey
  | pivotKeyNotFound
  | offsetRangeError
  | schemaError
deriving DecidableEq, Repr

/-- Command `PivotClass::StartCmd` (src/pivot.cpp lines 485-508) as a session-state
producer: the catalog result is given by its column-0 schema (type and
length) and the list of column-0 values of its rows.  The command contains no
`throwError` call, so it always succeeds and installs the built map. -/
def startCmd (ty : VType) (len : Int) (rows : List VValue) : Except PivotError PivotMapTable :=
  .ok (buildMap ty len rows)

/-- The validated parameters and session map bound to one `PivotClass`
functor: input column indices of the grouping columns, the pivot column's
index and type, the value columns' indices, and the session `PivotMapTable`. -/
structure PivotConfig : Type where
  grpCols : List Nat
  pivotColIdx : Nat
  pivotColType : VType
  pivotValCols : List Nat
  map : PivotMapTable

/-- The mutable per-functor state: the first-row flag `m_first_time` and the
output row `m_out_rd`, a slot array modelled as a function from slot index to
cell (`none` is the SQL null / `setNull` state). -/
structure PivotState : Type where
  m_first_time : Bool
  m_out_rd : Nat → Option VValue

/-- Write one output slot (`copyColumnValue` target / `setNull`). -/
def setSlot (out : Nat → Option VValue) (i : Nat) (v : Option VValue) : Nat → Option VValue :=
  fun j => if j = i then v else out j

/-- The grouping-column copy loop (src/pivot.cpp lines 253-258): group column
`grpIdx` is copied from input column `grpCols[grpIdx]` to output slot
`grpIdx`. -/
def writeGrpColsAux (row : Nat → Option VValue) : List Nat → Nat → (Nat → Option VValue) → (Nat → Option VValue)
  | [], _, out => out
  | c :: rest, outIdx, out => writeGrpColsAux row rest (outIdx + 1) (setSlot out outIdx (row c))

/-- The null-initialization loop (src/pivot.cpp lines 260-263): set `cnt`
slots to null starting at `start`. -/
def nullFill : Nat → Nat → (Nat → Option VValue) → (Nat → Option VValue)
  | _, 0, out => out
  | start, n + 1, out => nullFill (start + 1) n (setSlot out start none)

/-- The value-copy loop (src/pivot.cpp lines 328-338): for each value column,
the destination slot is `numGrpCols + myoffset*numpivotValCols + c`; a
destination below `numGrpCols` raises the offset-range error. -/
def copyValLoop (numGrpCols : Nat) (myoffset : Int) (vn : Nat) (row : Nat → Option VValue) :
    List Nat → Nat → (Nat → Option VValue) → Except PivotError (Nat → Option VValue)
  | [], _, out => .ok out
  | inCol :: rest, c, out =>
    let thiscolpos : Int := (numGrpCols : Int) + myoffset * (vn : Int) + (c : Int)
    if thiscolpos < (numGrpCols : Int) then .error .offsetRangeError
    else copyValLoop numGrpCols myoffset vn row rest (c + 1) (setSlot out thiscolpos.toNat (row inCol))

/-- Method `PivotClass::process` (src/pivot.cpp lines 234-339).  On the first row the
grouping columns are copied to the leading slots and all
`mapSize * numpivotValCols` pivot slots are set to null; then the pivot value
is null-checked, encoded, looked up, and the value columns are copied into
the key's slot block.  `throwError` aborts the query, modelled by `Except`. -/
def PivotClass.process (cfg : PivotConfig) (st : PivotState) (row : Nat → Option VValue) :
    Except PivotError PivotState :=
  let numGrpCols := cfg.grpCols.length
  let out0 :=
    if st.m_first_time then
      nullFill numGrpCols (cfg.map.getMapSize * cfg.pivotValCols.length)
        (writeGrpColsAux row cfg.grpCols 0 st.m_out_rd)
    else st.m_out_rd
  match row cfg.pivotColIdx with
  | none => .error .nullPivotKey
  | some v =>
    let key := processKey cfg.pivotColType v
    let myoffset := cfg.map.findcolumnoffset key
    if myoffset < 0 then .error .pivotKeyNotFound
    else
      (copyValLoop numGrpCols myoffset cfg.pivotValCols.length row cfg.pivotValCols 0 out0).map
        (fun out1 => { m_first_time := false, m_out_rd := out1 })

/-- Method `PivotClass::flush` (src/pivot.cpp lines 341-344): hand the accumulated
output row to the row store.  Nothing in the state is changed: the pair is
the post-flush state and the emitted row. -/
def PivotClass.flush (st : PivotState) : PivotState × (Nat → Option VValue) :=
  (st, st.m_out_rd)

/-- The `isleap` macro (src/last-day.cpp line 5): divisible by 4 and not by
100 unless also by 400. -/
def isleap (y : Int) : Bool :=
  y % 4 == 0 && (y % 100 != 0 || y % 400 == 0)

/-- The `m_last_days` table (src/last-day.cpp line 85). -/
def m_last_days : List Nat :=
  [31, 28, 31, 30, 31, 30, 31, 31, 30, 31, 30, 31]

/-- A civil-calendar date as seen through the host accessors
`extract_year_from_date`, `extract_month_from_date`,
`extract_day_from_date`. -/
structure CalDate : Type where
  year : Int
  month : Nat
  day : Nat
deriving DecidableEq, Repr

/-- Number of days in a civil month (February has 29 days in a leap year). -/
def daysInMonth (y : Int) (m : Nat) : Nat :=
  if m = 2 ∧ isleap y then 29 else m_last_days.getD (m - 1) 0

/-- The calendar successor of a date, rolling over months and years. -/
def nextDay (d : CalDate) : CalDate :=
  if d.day < daysInMonth d.year d.month then { d with day := d.day + 1 }
  else if d.month < 12 then { year := d.year, month := d.month + 1, day := 1 }
  else { year := d.year + 1, month := 1, day := 1 }

/-- The host collaborator `date_plus_days`, modelled as the iterated calendar
successor (the sources only ever pass nonnegative day counts that stay inside
the current month). -/
def date_plus_days (d : CalDate) : Nat → CalDate
  | 0 => d
  | n + 1 => date_plus_days (nextDay d) n

/-- Function `calc_lastdayofmonth` (src/last-day.cpp lines 83-97): in a leap-year
February add `29 - day` days, otherwise add `m_last_days[month-1] - day`
days (both computed in signed int arithmetic). -/
def calc_lastdayofmonth (d : CalDate) : CalDate :=
  if isleap d.year ∧ d.month = 2 then
    date_plus_days d ((29 - (d.day : Int)).toNat)
  else
    date_plus_days d (((m_last_days.getD (d.month - 1) 0 : Int) - (d.day : Int)).toNat)

/-- Function `last_day` (src/last-day.cpp lines 114-124): null in, null out; otherwise
the last day of the input's month. -/
def last_day (o : Option CalDate) : Option CalDate :=
  match o with
  | none => none
  | some d => some (calc_lastdayofmonth d)

/-- Index of the first occurrence of `k` in a list of keys (specification
device for stating which catalog row an encoded key's stored ordinal comes
from). -/
def firstOcc : List String → String → Option Nat
  | [], _ => none
  | s :: rest, k => if s = k then some 0 else (firstOcc rest k).map (· + 1)

/-- A concrete session map used by witness instances: keys "A" and "B" at
ordinals 0 and 1. -/
def testMap : PivotMapTable :=
  { m_key_col_idx := 3, m_value_type := 5, m_value_len := 4,
    m_pivotcol_type := .varChar, m_pivotcol_len := 10,
    m_map_values := [("A", 0), ("B", 1)] }

/-- A concrete functor configuration: one grouping column (input column 0),
pivot column 1 of type varchar, one value column (input column 2). -/
def testCfg : PivotConfig :=
  { grpCols := [0], pivotColIdx := 1, pivotColType := .varChar,
    pivotValCols := [2], map := testMap }

/-- Input row (group "g1", key "A", amount 10). -/
def testRowA : Nat → Option VValue := fun i =>
  if i = 0 then some (.varChar "g1") else
  if i = 1 then some (.varChar "A") else
  if i = 2 then some (.int 10) else none

/-- Input row (group "g2", key "B", amount 20). -/
def testRowB : Nat → Option VValue := fun i =>
  if i = 0 then some (.varChar "g2") else
  if i = 1 then some (.varChar "B") else
  if i = 2 then some (.int 20) else none

/-- Input row whose pivot column (column 1) is null. -/
def testRowNull : Nat → Option VValue := fun i =>
  if i = 0 then some (.varChar "g1") else
  if i = 2 then some (.int 10) else none

/-- Fresh per-group state: first-row flag set, output row unwritten. -/
def testStFresh : PivotState := { m_first_time := true, m_out_rd := fun _ => none }

/-- Mid-group state: first-row flag cleared, output slots holding marker
values so that frame preservation is observable. -/
def testStAcc : PivotState :=
  { m_first_time := false, m_out_rd := fun i => some (.smallInt (i : Int)) }

/-- Run row "g1"/"A"/10 from a fresh state, flush, then run row "g2"/"B"/20
through the same functor, and probe output slots 0, 1, 2 and the post-flush
first-row flag. -/
def groupBoundaryProbe : Option (Option VValue × Option VValue × Option VValue × Bool) :=
  (PivotClass.process testCfg testStFresh testRowA).toOption.bind (fun s1 =>
    (PivotClass.process testCfg (PivotClass.flush s1).1 testRowB).toOption.map (fun s2 =>
      (s2.m_out_rd 0, s2.m_out_rd 1, s2.m_out_rd 2, (PivotClass.flush s1).1.m_first_time)))

theorem lookupKV_append (l1 l2 : List (String × Int)) (k : String) :
    lookupKV (l1 ++ l2) k =
      match lookupKV l1 k with
      | some v => some v
      | none => lookupKV l2 k := by
  induction l1 with
  | nil => simp [lookupKV]
  | cons p rest ih =>
    by_cases h : p.1 = k
    · simp [lookupKV, h]
    · simp [lookupKV, h, ih]

theorem lookupKV_some_mem (l : List (String × Int)) (k : String) (o : Int)
    (h : lookupKV l k = some o) : (k, o) ∈ l := by
  induction l with
  | nil => simp [lookupKV] at h
  | cons p rest ih =>
    obtain ⟨a, b⟩ := p
    by_cases hk : a = k
    · rw [lookupKV, if_pos hk] at h
      simp only [Option.some.injEq] at h
      subst hk
      subst h
      exact List.mem_cons_self _ _
    · rw [lookupKV, if_neg hk] at h
      exact List.mem_cons_of_mem _ (ih h)

theorem setSlot_apply (out : Nat → Option VValue) (i : Nat) (v : Option VValue) (j : Nat) :
    setSlot out i v j = if j = i then v else out j := rfl

theorem writeGrpColsAux_apply (row : Nat → Option VValue) (l : List Nat) (idx : Nat)
    (out : Nat → Option VValue) (i : Nat) :
    writeGrpColsAux row l idx out i =
      if idx ≤ i ∧ i < idx + l.length then row (l.getD (i - idx) 0) else out i := by
  induction l generalizing idx out with
  | nil =>
    rw [writeGrpColsAux, if_neg (by simp only [List.length_nil]; omega)]
  | cons c rest ih =>
    rw [writeGrpColsAux, ih]
    by_cases h1 : idx + 1 ≤ i ∧ i < idx + 1 + rest.length
    · rw [if_pos h1, if_pos (by simp only [List.length_cons]; omega)]
      have he : i - idx = (i - (idx + 1)) + 1 := by omega
      rw [he, List.getD_cons_succ]
    · rw [if_neg h1, setSlot_apply]
      by_cases h2 : i = idx
      · subst h2
        rw [if_pos rfl, if_pos (by simp only [List.length_cons]; omega)]
        simp
      · rw [if_neg h2, if_neg (by simp only [List.length_cons]; omega)]

theorem nullFill_apply (n start : Nat) (out : Nat → Option VValue) (i : Nat) :
    nullFill start n out i = if start ≤ i ∧ i < start + n then none else out i := by
  induction n generalizing start out with
  | zero =>
    rw [nullFill, if_neg (by omega)]
  | succ n ih =>
    rw [nullFill, ih, setSlot_apply]
    by_cases h1 : start + 1 ≤ i ∧ i < start + 1 + n
    · rw [if_pos h1, if_pos (by omega)]
    · rw [if_neg h1]
      by_cases h2 : i = start
      · subst h2
        rw [if_pos rfl, if_pos (by omega)]
      · rw [if_neg h2, if_neg (by omega)]

theorem copyValLoop_spec (G : Nat) (off : Int) (hoff : 0 ≤ off) (vn : Nat)
    (row : Nat → Option VValue) (l : List Nat) (c : Nat) (out : Nat → Option VValue) :
    copyValLoop G off vn row l c out =
      .ok (fun i =>
        if G + off.toNat * vn + c ≤ i ∧ i < G + off.toNat * vn + c + l.length
        then row (l.getD (i - (G + off.toNat * vn + c)) 0) else out i) := by
  lift off to ℕ using hoff with k
  induction l generalizing c out with
  | nil =>
    rw [copyValLoop]
    congr 1
    funext i
    rw [if_neg (by simp only [List.length_nil]; omega)]
  | cons inCol rest ih =>
    rw [copyValLoop]
    have hbr : ¬ ((G : Int) + (k : Int) * (vn : Int) + (c : Int) < (G : Int)) := by
      have hmn : (0 : Int) ≤ (k : Int) * (vn : Int) := by positivity
      omega
    rw [if_neg hbr]
    have htn : ((G : Int) + (k : Int) * (vn : Int) + (c : Int)).toNat = G + k * vn + c := by
      omega
    rw [htn, ih]
    congr 1
    funext i
    simp only [Int.toNat_natCast, setSlot_apply, List.length_cons]
    by_cases h1 : G + k * vn + (c + 1) ≤ i ∧ i < G + k * vn + (c + 1) + rest.length
    · rw [if_pos h1, if_pos (by omega)]
      have he : i - (G + k * vn + c) = (i - (G + k * vn + (c + 1))) + 1 := by omega
      rw [he, List.getD_cons_succ]
    · rw [if_neg h1]
      by_cases h2 : i = G + k * vn + c
      · subst h2
        rw [if_pos rfl, if_pos (by omega)]
        simp
      · rw [if_neg h2, if_neg (by omega)]

theorem process_characterization (cfg : PivotConfig) (st : PivotState)
    (row : Nat → Option VValue) (v : VValue) (o : Int)
    (hv : row cfg.pivotColIdx = some v)
    (ho : cfg.map.findcolumnoffset (processKey cfg.pivotColType v) = o)
    (hnn : 0 ≤ o) :
    PivotClass.process cfg st row = .ok
      { m_first_time := false,
        m_out_rd := fun i =>
          if cfg.grpCols.length + o.toNat * cfg.pivotValCols.length ≤ i ∧
             i < cfg.grpCols.length + o.toNat * cfg.pivotValCols.length + cfg.pivotValCols.length
          then row (cfg.pivotValCols.getD
            (i - (cfg.grpCols.length + o.toNat * cfg.pivotValCols.length)) 0)
          else if st.m_first_time then
            (if i < cfg.grpCols.length then row (cfg.grpCols.getD i 0)
             else if i < cfg.grpCols.length + cfg.map.getMapSize * cfg.pivotValCols.length
             then none
             else st.m_out_rd i)
          else st.m_out_rd i } := by
  simp only [PivotClass.process, hv]
  rw [ho, if_neg (by omega), copyValLoop_spec _ _ hnn]
  simp only [Except.map]
  congr 1
  congr 1
  funext i
  simp only [Nat.add_zero]
  by_cases hblk : cfg.grpCols.length + o.toNat * cfg.pivotValCols.length ≤ i ∧
      i < cfg.grpCols.length + o.toNat * cfg.pivotValCols.length + cfg.pivotValCols.length
  · rw [if_pos (by omega), if_pos hblk]
  · rw [if_neg (by omega), if_neg hblk]
    cases hft : st.m_first_time with
    | false => simp
    | true =>
      simp only [if_pos]
      rw [nullFill_apply, writeGrpColsAux_apply]
      by_cases h1 : i < cfg.grpCols.length
      · rw [if_neg (by omega), if_pos (by omega), if_pos h1]
        simp
      · rw [if_neg h1]
        by_cases h2 : i < cfg.grpCols.length + cfg.map.getMapSize * cfg.pivotValCols.length
        · rw [if_pos (by omega), if_pos h2]
        · rw [if_neg (by omega), if_neg (by omega), if_neg h2]

/-- C1: for a row whose encoded pivot key is found in the map at offset `o`,
`process` writes exactly the `V` slots of the row's key-block (positions
`groupColumnCount + o*V` through `groupColumnCount + o*V + V - 1`, copied
from the row's value columns) and leaves every other output slot unchanged;
on the group's first row the slots outside the key-block hold the copied
grouping columns below `groupColumnCount` and null across the initialized
pivot region, i.e. still null when never written. -/
theorem process_writes_exactly_key_block (cfg : PivotConfig) (st : PivotState)
    (row : Nat → Option VValue) (v : VValue) (o : Int)
    (hv : row cfg.pivotColIdx = some v)
    (ho : cfg.map.findcolumnoffset (processKey cfg.pivotColType v) = o)
    (hnn : 0 ≤ o) :
    PivotClass.process cfg st row = .ok
      { m_first_time := false,
        m_out_rd := fun i =>
          if cfg.grpCols.length + o.toNat * cfg.pivotValCols.length ≤ i ∧
             i < cfg.grpCols.length + o.toNat * cfg.pivotValCols.length + cfg.pivotValCols.length
          then row (cfg.pivotValCols.getD
            (i - (cfg.grpCols.length + o.toNat * cfg.pivotValCols.length)) 0)
          else if st.m_first_time then
            (if i < cfg.grpCols.length then row (cfg.grpCols.getD i 0)
             else if i < cfg.grpCols.length + cfg.map.getMapSize * cfg.pivotValCols.length
             then none
             else st.m_out_rd i)
          else st.m_out_rd i } :=
  process_characterization cfg st row v o hv ho hnn

theorem process_writes_exactly_key_block_witness :
    (PivotClass.process testCfg testStAcc testRowA).toOption.map
        (fun s => (s.m_first_time, s.m_out_rd 0, s.m_out_rd 1, s.m_out_rd 2)) =
      some (false, some (.smallInt 0), some (.int 10), some (.smallInt 2)) := by
  rw [process_writes_exactly_key_block testCfg testStAcc testRowA (.varChar "A") 0
    (by decide) (by decide) (by norm_num)]
  decide

/-- C2: `process` raises the null-pivot-key error exactly when the row's
pivot column is null; for a non-null pivot value it raises the
key-not-found error exactly when the encoded key is absent from the map;
when the key is present (given the map invariant that stored offsets are
nonnegative, as `StartCmd` construction guarantees) no error is raised and
the row is accumulated. -/
theorem pivot_process_error_protocol (cfg : PivotConfig) (st : PivotState)
    (row : Nat → Option VValue)
    (hmap : ∀ p ∈ cfg.map.m_map_values, 0 ≤ p.2) :
    (PivotClass.process cfg st row = .error .nullPivotKey ↔ row cfg.pivotColIdx = none) ∧
    (∀ v, row cfg.pivotColIdx = some v →
      (PivotClass.process cfg st row = .error .pivotKeyNotFound ↔
        lookupKV cfg.map.m_map_values (processKey cfg.pivotColType v) = none)) ∧
    (∀ v o, row cfg.pivotColIdx = some v →
      lookupKV cfg.map.m_map_values (processKey cfg.pivotColType v) = some o →
      ∃ st', PivotClass.process cfg st row = .ok st') := by
  have master : ∀ v, row cfg.pivotColIdx = some v →
      (lookupKV cfg.map.m_map_values (processKey cfg.pivotColType v) = none ∧
        PivotClass.process cfg st row = .error .pivotKeyNotFound) ∨
      (∃ o, lookupKV cfg.map.m_map_values (processKey cfg.pivotColType v) = some o ∧
        ∃ st', PivotClass.process cfg st row = .ok st') := by
    intro v hr
    cases hl : lookupKV cfg.map.m_map_values (processKey cfg.pivotColType v) with
    | none =>
      left
      refine ⟨rfl, ?_⟩
      simp only [PivotClass.process, hr]
      have hoff : cfg.map.findcolumnoffset (processKey cfg.pivotColType v) = -1 := by
        unfold PivotMapTable.findcolumnoffset
        rw [hl]
      rw [hoff, if_pos (by norm_num)]
    | some o =>
      right
      have hoff : cfg.map.findcolumnoffset (processKey cfg.pivotColType v) = o := by
        unfold PivotMapTable.findcolumnoffset
        rw [hl]
      have hnn : (0 : Int) ≤ o :=
        hmap (processKey cfg.pivotColType v, o) (lookupKV_some_mem _ _ _ hl)
      exact ⟨o, rfl, _, process_characterization cfg st row v o hr hoff hnn⟩
  refine ⟨?_, ?_, ?_⟩
  · cases hr : row cfg.pivotColIdx with
    | none => simp [PivotClass.process, hr]
    | some v =>
      rcases master v hr with ⟨_, he⟩ | ⟨o, _, st', hok⟩
      · rw [he]
        simp [hr]
      · rw [hok]
        simp [hr]
  · intro v hr
    rcases master v hr with ⟨hl, he⟩ | ⟨o, hl, st', hok⟩
    · rw [he, hl]
      simp
    · rw [hok, hl]
      simp
  · intro v o hr hl
    rcases master v hr with ⟨hl', _⟩ | ⟨o', _, st', hok⟩
    · rw [hl] at hl'
      exact absurd hl' (by simp)
    · exact ⟨st', hok⟩

theorem pivot_process_error_protocol_witness :
    PivotClass.process testCfg testStAcc testRowNull = .error .nullPivotKey :=
  ((pivot_process_error_protocol testCfg testStAcc testRowNull (by decide)).1).mpr (by decide)

/-- C3: for every supported type tag (and every tag at all) and every scalar
value, the key string computed during map construction
(`PivotMapTable::add`) equals the key string computed during row processing
(`PivotClass::process`) for the same value and type tag. -/
theorem addKey_eq_processKey (ty : VType) (v : VValue) : addKey ty v = processKey ty v := by
  cases ty <;> rfl

/-- C6 counterexample: the claim says a type tag outside the supported set
makes the encoder fail with an unsupported-key-type error instead of
producing a key string.  At tag code 42 both encoder sites produce the empty
string as the key, and a full `process` call with that pivot-column type
raises no error at all: it succeeds and copies the value column into the
slot block of the empty-string key. -/
theorem encoder_unsupported_no_error_counterexample :
    addKey (.other 42) (.int 7) = "" ∧ processKey (.other 42) (.int 7) = "" ∧
    (PivotClass.process
        { grpCols := [], pivotColIdx := 0, pivotColType := .other 42, pivotValCols := [1],
          map := { m_key_col_idx := 0, m_value_type := 0, m_value_len := 0,
                   m_pivotcol_type := .other 42, m_pivotcol_len := 0,
                   m_map_values := [("", 0)] } }
        { m_first_time := false, m_out_rd := fun _ => none }
        (fun i => if i = 0 then some (.int 7) else some (.int 9))).toOption.map
      (fun s => s.m_out_rd 0) = some (some (.int 9)) := by
  refine ⟨rfl, rfl, ?_⟩
  decide

/-- C6 amended: for every type tag outside the supported set, both
key-encoding switches fall through their `default` branch and silently
produce the empty string as the key (no error is raised by the encoder). -/
theorem encoder_default_branch_empty_key (c : Int) (v : VValue) :
    addKey (.other c) v = "" ∧ processKey (.other c) v = "" :=
  ⟨rfl, rfl⟩

theorem lookupKV_insertKV_self (l : List (String × Int)) (k : String) (c : Int)
    (hl : lookupKV l k = none) : lookupKV (insertKV l k c) k = some c := by
  unfold insertKV
  rw [hl]
  simp only [Option.isSome_none, Bool.false_eq_true, if_false]
  rw [lookupKV_append, hl]
  simp [lookupKV]

theorem lookupKV_insertKV_other (l : List (String × Int)) (k0 k : String) (c : Int)
    (hk : k0 ≠ k) : lookupKV (insertKV l k0 c) k = lookupKV l k := by
  unfold insertKV
  by_cases hs : (lookupKV l k0).isSome
  · rw [if_pos hs]
  · rw [if_neg hs, lookupKV_append]
    cases hl : lookupKV l k with
    | none => simp [lookupKV, hk]
    | some w => simp

theorem buildMapAux_lookup (rows : List VValue) (t : PivotMapTable) (c : Int) (k : String) :
    lookupKV (buildMapAux t c rows).m_map_values k =
      match lookupKV t.m_map_values k with
      | some w => some w
      | none => (firstOcc (rows.map (addKey t.m_pivotcol_type)) k).map (fun i : Nat => c + (i : Int)) := by
  induction rows generalizing t c with
  | nil =>
    cases h : lookupKV t.m_map_values k <;> simp [buildMapAux, h, firstOcc]
  | cons v rest ih =>
    rw [buildMapAux, ih]
    simp only [PivotMapTable.add, List.map_cons, firstOcc]
    by_cases hkey : addKey t.m_pivotcol_type v = k
    · cases hl : lookupKV t.m_map_values k with
      | some w =>
        have hkeep : lookupKV (insertKV t.m_map_values (addKey t.m_pivotcol_type v) c) k = some w := by
          unfold insertKV
          rw [hkey, hl]
          simp only [Option.isSome_some, if_true]
          exact hl
        rw [hkeep]
      | none =>
        have hins : lookupKV (insertKV t.m_map_values (addKey t.m_pivotcol_type v) c) k = some c := by
          rw [hkey]
          exact lookupKV_insertKV_self _ _ _ hl
        rw [hins, if_pos hkey]
        simp
    · rw [lookupKV_insertKV_other _ _ _ _ hkey, if_neg hkey]
      cases hl : lookupKV t.m_map_values k with
      | some w => simp
      | none =>
        cases hf : firstOcc (rest.map (addKey t.m_pivotcol_type)) k with
        | none => simp [hf]
        | some i =>
          simp only [hf, Option.map, Option.some.injEq]
          push_cast
          ring

theorem firstOcc_getD_of_nodup (l : List String) (hnd : l.Nodup) :
    ∀ i, i < l.length → firstOcc l (l.getD i "") = some i := by
  induction l with
  | nil => intro i hi; simp at hi
  | cons s rest ih =>
    intro i hi
    cases i with
    | zero => simp [firstOcc]
    | succ n =>
      have hn : n < rest.length := by simpa using hi
      have hmem : rest.getD n "" ∈ rest := by
        rw [List.getD_eq_getElem rest "" hn]
        exact List.getElem_mem hn
      have hne : s ≠ rest.getD n "" := by
        intro he
        exact (List.nodup_cons.mp hnd).1 (he ▸ hmem)
      rw [List.getD_cons_succ, firstOcc, if_neg hne, ih (List.nodup_cons.mp hnd).2 n hn]
      rfl

/-- C4 amended: when two catalog rows encode to the same key string during
map construction, the EARLIER row's ordinal is kept
(`std::unordered_map::insert` does not overwrite an existing key): the map
sends every key present among the encoded catalog keys to the ordinal of the
key's first occurrence in catalog-row order, and -1 is reported for absent
keys; in particular, for catalog results with all-distinct encoded keys each
key receives its 0-based catalog-row position. -/
theorem buildMap_first_occurrence_wins (ty : VType) (len : Int) (rows : List VValue) (k : String) :
    ((buildMap ty len rows).findcolumnoffset k =
      (match firstOcc (rows.map (addKey ty)) k with
       | some i => (i : Int)
       | none => -1)) ∧
    ((rows.map (addKey ty)).Nodup → ∀ i, i < rows.length →
      (buildMap ty len rows).findcolumnoffset ((rows.map (addKey ty)).getD i "") = (i : Int)) := by
  have hchar : ∀ q : String, (buildMap ty len rows).findcolumnoffset q =
      (match firstOcc (rows.map (addKey ty)) q with
       | some i => (i : Int)
       | none => -1) := by
    intro q
    unfold PivotMapTable.findcolumnoffset buildMap
    rw [buildMapAux_lookup]
    have hbase : lookupKV (mkPivotMapTable.setPivotColType ty len).m_map_values q = none := rfl
    rw [hbase]
    have hty : (mkPivotMapTable.setPivotColType ty len).m_pivotcol_type = ty := rfl
    rw [hty]
    cases firstOcc (rows.map (addKey ty)) q <;> simp
  refine ⟨hchar k, ?_⟩
  intro hnd i hi
  rw [hchar ((rows.map (addKey ty)).getD i "")]
  rw [firstOcc_getD_of_nodup _ hnd i (by simpa using hi)]

theorem buildMap_first_occurrence_wins_witness :
    (buildMap .varChar 0 [.varChar "A", .varChar "B"]).findcolumnoffset "B" = 1 := by
  have h := (buildMap_first_occurrence_wins .varChar 0 [.varChar "A", .varChar "B"] "B").2
    (by decide) 1 (by decide)
  have e : (([VValue.varChar "A", VValue.varChar "B"].map (addKey .varChar)).getD 1 "") = "B" := by
    decide
  rw [e] at h
  exact h

/-- C4 counterexample: the claim says the LATER duplicate catalog row's
ordinal overwrites the earlier entry, so two rows both encoding "A" would
leave the map sending "A" to ordinal 1; the built map sends "A" to ordinal
0, the earlier row's position. -/
theorem buildMap_duplicate_key_counterexample :
    (buildMap .varChar 0 [.varChar "A", .varChar "A"]).findcolumnoffset "A" = 0 ∧
    (buildMap .varChar 0 [.varChar "A", .varChar "A"]).findcolumnoffset "A" ≠ 1 := by
  decide

/-- C5 counterexample: the claim says a zero-row catalog query makes Start
fail with the schema error rather than install an empty map; on the empty
catalog result `StartCmd` succeeds and installs a map with zero entries as
session state. -/
theorem startCmd_no_schema_error_counterexample :
    startCmd .varChar 5 [] = Except.ok (buildMap .varChar 5 []) ∧
    (buildMap .varChar 5 []).getMapSize = 0 ∧
    startCmd .varChar 5 [] ≠ Except.error PivotError.schemaError := by
  refine ⟨rfl, rfl, ?_⟩
  intro hcon
  exact Except.noConfusion hcon

/-- C5 amended: `StartCmd` performs no zero-row check: with zero catalog
rows it succeeds and installs an empty map as session state; the failure
surfaces only lazily, as the key-not-found error on every subsequently
processed row with a non-null pivot value. -/
theorem startCmd_zero_rows_installs_empty_map (ty : VType) (len : Int) :
    startCmd ty len [] = .ok (buildMap ty len []) ∧
    (buildMap ty len []).getMapSize = 0 ∧
    (∀ (grpCols valCols : List Nat) (pIdx : Nat) (pty : VType) (st : PivotState)
        (row : Nat → Option VValue) (v : VValue),
      row pIdx = some v →
      PivotClass.process
        { grpCols := grpCols, pivotColIdx := pIdx, pivotColType := pty,
          pivotValCols := valCols, map := buildMap ty len [] } st row =
        .error .pivotKeyNotFound) := by
  refine ⟨rfl, rfl, ?_⟩
  intro grpCols valCols pIdx pty st row v hv
  simp only [PivotClass.process, hv]
  rw [show (buildMap ty len []).findcolumnoffset (processKey pty v) = -1 from rfl]
  rw [if_pos (by norm_num : (-1 : Int) < 0)]

theorem startCmd_zero_rows_installs_empty_map_witness :
    PivotClass.process
      { grpCols := [0], pivotColIdx := 1, pivotColType := .varChar,
        pivotValCols := [2], map := buildMap .varChar 5 [] } testStFresh testRowA =
      .error .pivotKeyNotFound :=
  (startCmd_zero_rows_installs_empty_map .varChar 5).2.2 [0] [2] 1 .varChar testStFresh
    testRowA (.varChar "A") (by decide)

theorem readPairs_encPairs :
    ∀ (l acc : List (String × Int)), (l.map Prod.fst).Nodup →
      (∀ p ∈ l, lookupKV acc p.1 = none) →
      readPairs l.length acc (encPairs l) = some (acc ++ l) := by
  intro l
  induction l with
  | nil =>
    intro acc _ _
    simp [readPairs, encPairs]
  | cons p rest ih =>
    intro acc hnd hdisj
    rw [encPairs, List.length_cons, readPairs]
    have hins : insertKV acc p.1 p.2 = acc ++ [p] := by
      unfold insertKV
      rw [hdisj p (List.mem_cons_self p rest)]
      simp
    have hnd' : (rest.map Prod.fst).Nodup := by
      simp only [List.map_cons, List.nodup_cons] at hnd
      exact hnd.2
    have hnotin : p.1 ∉ rest.map Prod.fst := by
      simp only [List.map_cons, List.nodup_cons] at hnd
      exact hnd.1
    have hdisj' : ∀ q ∈ rest, lookupKV (acc ++ [p]) q.1 = none := by
      intro q hq
      rw [lookupKV_append, hdisj q (List.mem_cons_of_mem p hq)]
      have hne : p.1 ≠ q.1 := by
        intro he
        exact hnotin (he ▸ List.mem_map_of_mem Prod.fst hq)
      simp [lookupKV, hne]
    rw [hins, ih (acc ++ [p]) hnd' hdisj']
    simp

/-- C8: deserializing the output of serialize yields a map whose key-offset
entries are identical to the original's and whose recorded pivot-column and
value-column type/length metadata equal the original's (the key-column index
is not serialized and comes back as the constructor value 0, matching the
sources; entry-key distinctness is the invariant `insert`-built maps
enjoy). -/
theorem pivot_map_serialize_roundtrip (t : PivotMapTable)
    (h : (t.m_map_values.map Prod.fst).Nodup) :
    deserializeTable t.serialize =
      some { m_key_col_idx := 0, m_value_type := t.m_value_type,
             m_value_len := t.m_value_len, m_pivotcol_type := t.m_pivotcol_type,
             m_pivotcol_len := t.m_pivotcol_len, m_map_values := t.m_map_values } := by
  unfold PivotMapTable.serialize deserializeTable
  simp only [Int.toNat_natCast]
  rw [readPairs_encPairs t.m_map_values [] h (fun p _ => rfl)]
  simp

theorem pivot_map_serialize_roundtrip_witness :
    deserializeTable testMap.serialize =
      some { m_key_col_idx := 0, m_value_type := 5, m_value_len := 4,
             m_pivotcol_type := .varChar, m_pivotcol_len := 10,
             m_map_values := [("A", 0), ("B", 1)] } :=
  pivot_map_serialize_roundtrip testMap (by decide)

/-- C9 counterexample: the claim says a group boundary returns the processor
to its awaiting-first-row state so the next group's first row re-copies the
grouping columns and re-initializes every pivot slot to null.  In the
concrete run (group "g1" row with key "A", flush, then group "g2" row with
key "B" through the same functor) the post-flush first-row flag is still
false, slot 0 still holds "g1" (not "g2") and key "A"'s slot still holds 10
(not null): the predicted probe value is refuted. -/
theorem group_boundary_no_reinit_counterexample :
    groupBoundaryProbe = some (some (.varChar "g1"), some (.int 10), some (.int 20), false) ∧
    groupBoundaryProbe ≠ some (some (.varChar "g2"), none, some (.int 20), true) := by
  decide

/-- C9 amended: on a group boundary `flush` emits the accumulated wide row
downstream but leaves the processor state unchanged: the accumulator is not
released and the first-row flag is not reset, so a subsequent row processed
by the same functor (its flag already false) leaves every output slot
outside that row's own key-block at its pre-boundary value instead of
re-copying the grouping columns and re-initializing the pivot slots;
fresh-group initialization happens only through a new functor instance. -/
theorem flush_emits_without_reset (st : PivotState) :
    (PivotClass.flush st).2 = st.m_out_rd ∧
    (PivotClass.flush st).1.m_first_time = st.m_first_time ∧
    (PivotClass.flush st).1.m_out_rd = st.m_out_rd ∧
    (∀ (cfg : PivotConfig) (row : Nat → Option VValue) (v : VValue) (o : Int) (i : Nat),
      st.m_first_time = false →
      row cfg.pivotColIdx = some v →
      cfg.map.findcolumnoffset (processKey cfg.pivotColType v) = o →
      0 ≤ o →
      (i < cfg.grpCols.length + o.toNat * cfg.pivotValCols.length ∨
        cfg.grpCols.length + o.toNat * cfg.pivotValCols.length + cfg.pivotValCols.length ≤ i) →
      (PivotClass.process cfg (PivotClass.flush st).1 row).toOption.map
          (fun s => s.m_out_rd i) =
        some (st.m_out_rd i)) := by
  refine ⟨rfl, rfl, rfl, ?_⟩
  intro cfg row v o i hft hv ho hnn hout
  have h := process_characterization cfg st row v o hv ho hnn
  rw [show (PivotClass.flush st).1 = st from rfl, h]
  simp only [Except.toOption, Option.map, Option.some.injEq]
  rw [if_neg (by omega), hft]
  simp

theorem flush_emits_without_reset_witness :
    (PivotClass.process testCfg (PivotClass.flush testStAcc).1 testRowA).toOption.map
        (fun s => s.m_out_rd 0) = some (testStAcc.m_out_rd 0) :=
  (flush_emits_without_reset testStAcc).2.2.2 testCfg testRowA (.varChar "A") 0 0
    rfl (by decide) (by decide) (by norm_num) (by decide)

theorem decStr_of_pos (n : Nat) (hn : n ≠ 0) :
    decStr n = String.mk (((Nat.digits 10 n).map Nat.digitChar).reverse) := by
  rw [decStr, if_neg hn]

theorem decStr_append (a b : Nat) (ha : 0 < a) (hb1 : 100000000000 ≤ b)
    (hb2 : b < 1000000000000) :
    decStr (b + 1000000000000 * a) = decStr a ++ decStr b := by
  have hb0 : b ≠ 0 := by omega
  have hlog : Nat.log 10 b = 11 :=
    Nat.log_eq_of_pow_le_of_lt_pow (by norm_num [hb1]) (by norm_num [hb2])
  have hlen : (Nat.digits 10 b).length = 12 := by
    rw [Nat.digits_len 10 b (by norm_num) hb0, hlog]
  have key : Nat.digits 10 b ++ Nat.digits 10 a =
      Nat.digits 10 (b + 10 ^ (Nat.digits 10 b).length * a) :=
    Nat.digits_append_digits (by norm_num)
  rw [hlen] at key
  norm_num at key
  rw [decStr_of_pos _ (by omega), decStr_of_pos a (by omega), decStr_of_pos b hb0]
  rw [← key, List.map_append, List.reverse_append]
  rfl

theorem render128pos_exact_of_segOk (n : Nat) (h : segOk n = true) :
    render128pos n = decStr n := by
  induction n using Nat.strong_induction_on with
  | _ n ih =>
    by_cases hn : 9223372036854775807 < n
    · rw [segOk, if_pos hn] at h
      simp only [Bool.and_eq_true, decide_eq_true_eq] at h
      obtain ⟨h1, h2⟩ := h
      rw [render128pos, if_pos hn]
      rw [ih (n / 1000000000000) (Nat.div_lt_self (by omega) (by norm_num)) h2]
      have hq : 0 < n / 1000000000000 := Nat.div_pos (by omega) (by norm_num)
      have hcat := decStr_append (n / 1000000000000) (n % 1000000000000) hq h1
        (Nat.mod_lt _ (by norm_num))
      rw [← hcat]
      congr 1
      omega
    · rw [render128pos, if_neg hn]

theorem decStr_length (n : Nat) :
    (decStr n).length = if n = 0 then 1 else (Nat.digits 10 n).length := by
  rw [decStr]
  by_cases hn : n = 0
  · rw [if_pos hn, if_pos hn]
    rfl
  · rw [if_neg hn, if_neg hn]
    show (((Nat.digits 10 n).map Nat.digitChar).reverse).length = _
    rw [List.length_reverse, List.length_map]

theorem decStr_length_le (r k : Nat) (hk : 1 ≤ k) (h : r < 10 ^ k) :
    (decStr r).length ≤ k := by
  rw [decStr_length]
  by_cases hr : r = 0
  · rw [if_pos hr]
    omega
  · rw [if_neg hr, Nat.digits_len 10 r (by norm_num) hr]
    have := Nat.log_lt_of_lt_pow hr h
    omega

theorem digits_len_split_low (n : Nat) (hn : 9223372036854775807 < n) :
    (Nat.digits 10 n).length = (Nat.digits 10 (n / 1000000000000)).length + 12 := by
  have hq0 : n / 1000000000000 ≠ 0 := by omega
  rw [Nat.digits_len 10 n (by norm_num) (by omega),
    Nat.digits_len 10 _ (by norm_num) hq0]
  have hlog : Nat.log 10 n = Nat.log 10 (n / 1000000000000) + 12 := by
    apply Nat.log_eq_of_pow_le_of_lt_pow
    · calc 10 ^ (Nat.log 10 (n / 1000000000000) + 12)
          = 10 ^ Nat.log 10 (n / 1000000000000) * 1000000000000 := by ring
        _ ≤ (n / 1000000000000) * 1000000000000 :=
          Nat.mul_le_mul_right _ (Nat.pow_log_le_self 10 hq0)
        _ ≤ n := Nat.div_mul_le_self n 1000000000000
    · have hq : n / 1000000000000 < 10 ^ (Nat.log 10 (n / 1000000000000)).succ :=
        Nat.lt_pow_succ_log_self (by norm_num) _
      calc n < (n / 1000000000000 + 1) * 1000000000000 := by omega
        _ ≤ 10 ^ (Nat.log 10 (n / 1000000000000)).succ * 1000000000000 :=
          Nat.mul_le_mul_right _ (by omega)
        _ = 10 ^ (Nat.log 10 (n / 1000000000000) + 12 + 1) := by
          rw [Nat.succ_eq_add_one]
          ring
  omega

theorem render128pos_length_le (n : Nat) :
    (render128pos n).length ≤ (decStr n).length ∧
    (segOk n = false → (render128pos n).length < (decStr n).length) := by
  induction n using Nat.strong_induction_on with
  | _ n ih =>
    by_cases hn : 9223372036854775807 < n
    · rw [render128pos, if_pos hn, segOk, if_pos hn]
      have hrec := ih (n / 1000000000000) (Nat.div_lt_self (by omega) (by norm_num))
      have hlen12 : (decStr (n % 1000000000000)).length ≤ 12 :=
        decStr_length_le _ 12 (by norm_num) (by
          have := Nat.mod_lt n (show 0 < 1000000000000 by norm_num)
          norm_num
          omega)
      have hdn : (decStr n).length = (decStr (n / 1000000000000)).length + 12 := by
        rw [decStr_length, decStr_length, if_neg (by omega), if_neg (by omega),
          digits_len_split_low n hn]
      rw [String.length_append, hdn]
      constructor
      · omega
      · intro hf
        simp only [Bool.and_eq_false_imp, decide_eq_true_eq] at hf
        by_cases hlow : 100000000000 ≤ n % 1000000000000
        · have hq := hrec.2 (hf hlow)
          omega
        · have hlen11 : (decStr (n % 1000000000000)).length ≤ 11 :=
            decStr_length_le _ 11 (by norm_num) (by norm_num; omega)
          omega
    · rw [render128pos, if_neg hn, segOk, if_neg hn]
      exact ⟨Nat.le_refl _, fun hf => absurd hf (by simp)⟩

theorem render128pos_ne_of_segOk_false (n : Nat) (h : segOk n = false) :
    render128pos n ≠ decStr n := by
  intro he
  have hlt := (render128pos_length_le n).2 h
  rw [he] at hlt
  omega

theorem string_append_left_cancel (a x y : String) (h : a ++ x = a ++ y) : x = y := by
  obtain ⟨la⟩ := a
  obtain ⟨lx⟩ := x
  obtain ⟨ly⟩ := y
  have h2 : la ++ lx = la ++ ly := congrArg String.data h
  exact congrArg String.mk (List.append_cancel_left h2)

/-- C7 amended: the 128-bit stream-output operator renders a value as sign
followed by the concatenated high/low decimal segments, and the result
equals the sign followed by the true decimal digit string of the magnitude
IF AND ONLY IF every 12-digit low segment produced by the high/low splitting
has no leading zero (`segOk`): when every low segment is at least 10^11 the
concatenation is the exact decimal representation, and when any low segment
is below 10^11 the unpadded `long long` print drops its leading zeros and
the rendering differs. -/
theorem render128_decimal_amended (v : Int) :
    render128 v = (if v < 0 then "-" else "") ++ decStr v.natAbs ↔
      segOk v.natAbs = true := by
  constructor
  · intro he
    by_contra hf
    have hf' : segOk v.natAbs = false := Bool.eq_false_iff.mpr hf
    apply render128pos_ne_of_segOk_false v.natAbs hf'
    unfold render128 at he
    by_cases hv : v < 0
    · rw [if_pos hv, if_pos hv] at he
      have hnat : (-v).toNat = v.natAbs := by omega
      rw [hnat] at he
      exact string_append_left_cancel "-" _ _ he
    · rw [if_neg hv, if_neg hv] at he
      have hnat : v.toNat = v.natAbs := by omega
      rw [hnat] at he
      exact string_append_left_cancel "" _ _ he
  · intro h
    unfold render128
    by_cases hv : v < 0
    · rw [if_pos hv, if_pos hv]
      have he : (-v).toNat = v.natAbs := by omega
      rw [he, render128pos_exact_of_segOk _ h]
    · rw [if_neg hv, if_neg hv]
      have he : v.toNat = v.natAbs := by omega
      rw [he, render128pos_exact_of_segOk _ h]
      rfl

theorem render128_decimal_amended_witness :
    segOk ((10000000987654321098 : Int)).natAbs = true ∧
    render128 (10000000987654321098 : Int) =
      (if (10000000987654321098 : Int) < 0 then "-" else "") ++
        decStr ((10000000987654321098 : Int)).natAbs := by
  have hs : segOk ((10000000987654321098 : Int)).natAbs = true := by
    norm_num
    rw [segOk]
    norm_num
    rw [segOk]
    norm_num
  exact ⟨hs, (render128_decimal_amended _).mpr hs⟩

/-- C7 counterexample: the claim says that for every value whose magnitude
exceeds the signed 64-bit maximum, concatenating the printed high segment
(value / 10^12) and low segment (value % 10^12) yields the value's true
decimal digit string.  At 10^19 the low segment is 0, printed unpadded as
"0", so the operator renders "100000000" while the true decimal string is
"10000000000000000000". -/
theorem render128_leading_zero_counterexample :
    render128 (10 ^ 19 : Int) = "100000000" ∧
    decStr ((10 ^ 19 : Int)).toNat = "10000000000000000000" ∧
    render128 (10 ^ 19 : Int) ≠ decStr ((10 ^ 19 : Int)).toNat := by
  have ht : ((10 ^ 19 : Int)).toNat = 10 ^ 19 := by decide
  have h1 : render128 (10 ^ 19 : Int) = "100000000" := by
    rw [render128, if_neg (by norm_num), ht]
    rw [render128pos]
    norm_num
    rw [render128pos]
    norm_num [decStr, Nat.digits_def']
    decide
  have h2 : decStr ((10 ^ 19 : Int)).toNat = "10000000000000000000" := by
    rw [ht]
    norm_num [decStr, Nat.digits_def']
    decide
  refine ⟨h1, h2, ?_⟩
  rw [h1, h2]
  decide

theorem date_plus_days_within (n : Nat) :
    ∀ d : CalDate, d.day + n ≤ daysInMonth d.year d.month →
      date_plus_days d n = { year := d.year, month := d.month, day := d.day + n } := by
  induction n with
  | zero => intro d _; rfl
  | succ n ih =>
    intro d h
    have hlt : d.day < daysInMonth d.year d.month := by omega
    rw [date_plus_days]
    have hnd : nextDay d = { year := d.year, month := d.month, day := d.day + 1 } := by
      rw [nextDay, if_pos hlt]
    rw [hnd, ih { year := d.year, month := d.month, day := d.day + 1 } (by simpa using by omega)]
    simp only [CalDate.mk.injEq, true_and]
    omega

/-- C10: for every non-null input date in February (a valid day of that
month), `last_day` returns a date in the same month and year whose
day-of-month is 29 when `isleap` holds of the year (divisible by 4 and not
by 100 unless also by 400) and 28 when it does not. -/
theorem last_day_february (d : CalDate) (hm : d.month = 2) (hd1 : 1 ≤ d.day)
    (hd2 : d.day ≤ daysInMonth d.year 2) :
    last_day (some d) = some { year := d.year, month := 2, day := if isleap d.year then 29 else 28 } := by
  obtain ⟨y, m, day⟩ := d
  simp only at hm hd1 hd2
  subst hm
  rw [last_day]
  by_cases hl : isleap y
  · rw [calc_lastdayofmonth, if_pos ⟨hl, rfl⟩]
    have hdim : daysInMonth y 2 = 29 := by
      rw [daysInMonth, if_pos ⟨rfl, hl⟩]
    rw [hdim] at hd2
    have hn : ((29 : Int) - ((day : Nat) : Int)).toNat = 29 - day := by omega
    rw [hn, date_plus_days_within (29 - day) ⟨y, 2, day⟩
      (by show day + (29 - day) ≤ daysInMonth y 2; rw [hdim]; omega)]
    simp [hl]
    omega
  · rw [calc_lastdayofmonth, if_neg (by intro hcon; exact hl hcon.1)]
    have hdim : daysInMonth y 2 = 28 := by
      rw [daysInMonth, if_neg (by intro hcon; exact hl hcon.2)]
      rfl
    rw [hdim] at hd2
    have hg : (m_last_days.getD (2 - 1) 0 : Int) = 28 := by decide
    have hn : ((m_last_days.getD (2 - 1) 0 : Int) - ((day : Nat) : Int)).toNat = 28 - day := by
      rw [hg]
      omega
    rw [hn, date_plus_days_within (28 - day) ⟨y, 2, day⟩
      (by show day + (28 - day) ≤ daysInMonth y 2; rw [hdim]; omega)]
    simp [hl]
    omega

theorem last_day_february_witness :
    last_day (some { year := 2024, month := 2, day := 10 }) =
      some { year := 2024, month := 2, day := 29 } ∧
    last_day (some { year := 2023, month := 2, day := 11 }) =
      some { year := 2023, month := 2, day := 28 } := by
  constructor
  · have h := last_day_february { year := 2024, month := 2, day := 10 } rfl (by norm_num)
      (by decide)
    rw [h]
    decide
  · have h := last_day_february { year := 2023, month := 2, day := 11 } rfl (by norm_num)
      (by decide)
    rw [h]
    decide
